import Mathlib

/-!
Verification of the port-knocking admission engine.

The development shallowly embeds the Rust sources:
* `knock_state.rs` : the pure knock state machine (`tryNew`, `progress`,
  `isValid`, `expiration`);
* `main.rs` : the admission engine `handle_knock`, the record store
  (a generational slotmap, modelled by an association list together with a
  fresh-key counter), the active-knock index, the expiration queue (a binary
  min-heap of `(expires, key, addr)` triples, modelled by a list kept sorted
  by that triple), and the incremental cleanup `perform_cleanup`;
* `expire.rs` : the alternative `ExpirationQueue::try_clean_next` cleanup.

Time is modelled in seconds as a natural number; `Instant::recent()` becomes
an explicit `now` parameter.  A Rust panic (`unwrap`/`expect`/out-of-bounds
indexing) is modelled by `Option`, with `none` meaning the program aborts.
-/

namespace PortKnock

/-- From knock_state.rs: the fixed secret port sequence. -/
def PORT_SEQUENCE : List Nat := [123, 436, 1928, 29545]

/-- From knock_state.rs: pending-step window, seconds. -/
def PENDING_DURATION : Nat := 5

/-- From knock_state.rs: passed (door-open) window, seconds. -/
def PASSED_DURATION : Nat := 30

/-- From knock_state.rs: the knock state machine states. -/
inductive KnockState where
  | PortPending (last_idx : Nat) (expires : Nat)
  | Passed (expires : Nat)
  | Failed
deriving DecidableEq, Repr

/-- From knock_state.rs, `KnockState::try_new`: a fresh knock enters the
pending state on the first sequence port and fails otherwise. -/
def tryNew (port : Nat) (now : Nat) : KnockState :=
  if port = PORT_SEQUENCE.getD 0 0 then
    .PortPending 0 (now + PENDING_DURATION)
  else
    .Failed

/-- From knock_state.rs, `KnockState::progress`.  The Rust code indexes
`PORT_SEQUENCE[last_idx]` and `PORT_SEQUENCE[last_idx + 1]`; an out-of-bounds
index panics, which is modelled by `none`. -/
def progress (s : KnockState) (port : Nat) (now : Nat) : Option KnockState :=
  match s with
  | .PortPending last_idx _ =>
    -- Explicit restart
    if port = PORT_SEQUENCE.getD 0 0 then
      some (.PortPending 0 (now + PENDING_DURATION))
    else
      match PORT_SEQUENCE.get? last_idx with
      | none => none
      | some cur =>
        -- Repeated knock
        if port = cur then
          some (.PortPending last_idx (now + PENDING_DURATION))
        else
          match PORT_SEQUENCE.get? (last_idx + 1) with
          | none => none
          | some nxt =>
            -- Bad knock
            if port ≠ nxt then
              some .Failed
            -- End of sequence
            else if last_idx + 2 = PORT_SEQUENCE.length then
              some (.Passed (now + PASSED_DURATION))
            -- Next knock
            else
              some (.PortPending (last_idx + 1) (now + PENDING_DURATION))
  -- Any state other than pending is returned unchanged
  | s => some s

/-- From knock_state.rs, `KnockState::is_valid`: pending/passed states are
live strictly before their expiry; `Failed` is never live. -/
def isValid (s : KnockState) (now : Nat) : Bool :=
  match s with
  | .PortPending _ expires_at => decide (now < expires_at)
  | .Passed expires_at => decide (now < expires_at)
  | .Failed => false

/-- From knock_state.rs, `KnockState::expiration`; calling it on `Failed`
is an unreachable panic, modelled by `none`. -/
def expiration (s : KnockState) : Option Nat :=
  match s with
  | .PortPending _ expires => some expires
  | .Passed expires => some expires
  | .Failed => none

/-- Knock-machine states reachable by `try_new` followed by any number of
(non-panicking) `progress` calls. -/
inductive ReachK : KnockState → Prop where
  | new (port now : Nat) : ReachK (tryNew port now)
  | prog {s s' : KnockState} (port now : Nat) :
      ReachK s → progress s port now = some s' → ReachK s'

lemma progress_pending_bound {i e p t : Nat} {s' : KnockState}
    (hi : i ≤ 2) (h : progress (.PortPending i e) p t = some s') :
    ∀ j e', s' = .PortPending j e' → j ≤ 2 := by
  interval_cases i <;>
    · simp only [progress, PORT_SEQUENCE, List.get?] at h
      split at h <;>
        [skip; (split at h <;> [skip; (split at h <;> [skip; split at h])])] <;>
      · injection h with h
        subst h
        intro j e' hj
        first
        | (injection hj with hj _; omega)
        | exact KnockState.noConfusion hj
        | exact absurd (by decide : 2 + 2 = [123, 436, 1928, 29545].length)
            (by assumption)

lemma progress_pending_isSome {i e p t : Nat} (hi : i ≤ 2) :
    (progress (.PortPending i e) p t).isSome := by
  interval_cases i <;>
    · simp only [progress, PORT_SEQUENCE, List.get?]
      split <;> [rfl; (split <;> [rfl; split <;> [rfl; split <;> rfl]])]

/-- C10: every reachable knock state that is `PortPending` has step index at
most 2 (sequence length minus 2), and `progress` never hits an out-of-bounds
sequence access (never panics) on a reachable state. -/
theorem reachable_pending_step_le_two_and_progress_total
    (s : KnockState) (h : ReachK s) :
    (∀ i e, s = .PortPending i e → i ≤ 2) ∧
    (∀ p t, (progress s p t).isSome) := by
  induction h with
  | new port now =>
    constructor
    · intro i e hs
      unfold tryNew at hs
      split at hs
      · injection hs with h1 _; omega
      · cases hs
    · intro p t
      unfold tryNew
      split
      · exact progress_pending_isSome (by omega)
      · rfl
  | prog port now _ hstep ih =>
    rename_i s s' _
    match s with
    | .Passed e =>
        simp only [progress] at hstep
        cases hstep
        exact ih
    | .Failed =>
        simp only [progress] at hstep
        cases hstep
        exact ih
    | .PortPending i e =>
        have hi : i ≤ 2 := ih.1 i e rfl
        have hb := progress_pending_bound hi hstep
        constructor
        · exact hb
        · intro p' t'
          match s', hb with
          | .PortPending j e', hb => exact progress_pending_isSome (hb j e' rfl)
          | .Passed e', _ => rfl
          | .Failed, _ => rfl

/-- Witness for C10 at the concrete reachable state after a first knock. -/
theorem reachable_pending_step_le_two_and_progress_total_witness :
    (progress (tryNew 123 0) 436 1).isSome :=
  (reachable_pending_step_le_two_and_progress_total (tryNew 123 0)
    (ReachK.new 123 0)).2 436 1

/-- C5: from a fresh (absent) state, presenting exactly 123, 436, 1928,
29545 in order (start, then three advances) yields `Passed` whose expiry is
the time of the final knock plus the 30-second passed window. -/
theorem full_sequence_yields_passed (t0 t1 t2 t3 : Nat) :
    (do
      let s1 ← progress (tryNew 123 t0) 436 t1
      let s2 ← progress s1 1928 t2
      progress s2 29545 t3) = some (.Passed (t3 + PASSED_DURATION)) := by
  rfl

/-- C7: advancing a `PortPending` state at step `s` with the sequence port of
step `s` itself (a duplicate/retransmitted knock) keeps the step unchanged,
refreshes the expiry to `now + PENDING_DURATION`, and neither fails nor
advances. -/
theorem duplicate_knock_refreshes_expiry (s e now : Nat)
    (hs : s < PORT_SEQUENCE.length) :
    progress (.PortPending s e) (PORT_SEQUENCE.getD s 0) now =
      some (.PortPending s (now + PENDING_DURATION)) := by
  have : s < 4 := by simpa [PORT_SEQUENCE] using hs
  interval_cases s <;> rfl

/-- Witness for C7 at step 1 (port 436). -/
theorem duplicate_knock_refreshes_expiry_witness :
    progress (.PortPending 1 9) (PORT_SEQUENCE.getD 1 0) 4 =
      some (.PortPending 1 (4 + PENDING_DURATION)) :=
  duplicate_knock_refreshes_expiry 1 9 4 (by decide)

/-! ## The three shared structures of main.rs -/

/-- IP addresses, modelled abstractly. -/
abbrev Addr := Nat

/-- Slotmap keys.  The slotmap's generational indexing guarantees a key is
never reused after removal; this is modelled by handing out keys from a
counter that only grows. -/
abbrev KnockKey := Nat

/-- From knock_meta.rs: the decoded packet descriptor (`KnockMeta`). -/
structure KnockMeta where
  src_addr : Addr
  dst_addr : Addr
  src_port : Nat
  dst_port : Nat
deriving DecidableEq, Repr

/-- From main.rs: `KnockStates = SlotMap<DefaultKey, KnockState>`, the record
store.  `recs` maps the live keys to their states; `next` is the next fresh
key. -/
structure KnockStates where
  next : Nat
  recs : AList (fun _ : KnockKey => KnockState)
deriving DecidableEq

def KnockStates.get (m : KnockStates) (k : KnockKey) : Option KnockState :=
  m.recs.lookup k

def KnockStates.removeKey (m : KnockStates) (k : KnockKey) : KnockStates :=
  { m with recs := m.recs.erase k }

def KnockStates.insertNew (m : KnockStates) (s : KnockState) :
    KnockKey × KnockStates :=
  (m.next, { next := m.next + 1, recs := m.recs.insert m.next s })

/-- From main.rs: `ActiveKnocks = HashMap<IpAddr, KnockKey>`, the
active-knock index. -/
abbrev ActiveKnocks := AList (fun _ : Addr => KnockKey)

/-- One expiration-queue element, main.rs `Reverse<(Instant, KnockKey,
IpAddr)>`. -/
structure QEntry where
  expires : Nat
  key : KnockKey
  addr : Addr
deriving DecidableEq, Repr

/-- The lexicographic order the `BinaryHeap<Reverse<(Instant, KnockKey,
IpAddr)>>` min-pops by. -/
def QEntry.below (a b : QEntry) : Bool :=
  decide (a.expires < b.expires) ||
    (decide (a.expires = b.expires) &&
      (decide (a.key < b.key) ||
        (decide (a.key = b.key) && decide (a.addr ≤ b.addr))))

/-- The expiration queue, modelled as a list kept sorted ascending by the
heap order; the heap's pop-min is the head. -/
def qpush (e : QEntry) : List QEntry → List QEntry
  | [] => [e]
  | x :: xs => if QEntry.below e x then e :: x :: xs else x :: qpush e xs

lemma mem_qpush {e x : QEntry} {q : List QEntry} :
    x ∈ qpush e q ↔ x = e ∨ x ∈ q := by
  induction q with
  | nil => simp [qpush]
  | cons y ys ih =>
    simp only [qpush]
    split
    · simp [List.mem_cons]
    · simp only [List.mem_cons, ih]
      tauto

/-- The three structures the event loop owns. -/
structure SysState where
  knock_states : KnockStates
  active_knocks : ActiveKnocks
  expiration_queue : List QEntry
deriving DecidableEq

/-- The empty state the event loop starts from. -/
def initState : SysState := ⟨⟨0, ∅⟩, ∅, []⟩

/-- The accept tail of `handle_knock`: insert the new record, push its
expiry, set the index entry.  `KnockState::expiration` on `Failed` is an
unreachable panic, modelled by `none`. -/
def commitKnock (addr : Addr) (knock : KnockState) (s : SysState) :
    Option SysState :=
  match expiration knock with
  | none => none
  | some exp =>
    let p := s.knock_states.insertNew knock
    some { knock_states := p.2,
           active_knocks := s.active_knocks.insert addr p.1,
           expiration_queue := qpush ⟨exp, p.1, addr⟩ s.expiration_queue }

/-- From main.rs: `handle_knock`.  The engine destructures the packet as
`KnockMeta { dst_addr: addr, dst_port: port, .. }` and keys every lookup and
mutation on that `addr`.  `none` models a panic (the `expect` on a dangling
index entry, or an out-of-bounds sequence access inside `progress`). -/
def handleKnock (m : KnockMeta) (now : Nat) (s : SysState) : Option SysState :=
  let addr := m.dst_addr
  let port := m.dst_port
  match s.active_knocks.lookup addr with
  | none =>
    -- vacant entry: fresh attempt
    let knock := tryNew port now
    if isValid knock now then commitKnock addr knock s
    else some s
  | some knock_key =>
    match s.knock_states.get knock_key with
    | none => none
    | some st =>
      match st with
      | .Passed _ => some s   -- "Door already open": no expiry check here
      | _ =>
        -- remove the key to invalidate cleanup, then progress
        let s1 : SysState :=
          { s with knock_states := s.knock_states.removeKey knock_key }
        match progress st port now with
        | none => none
        | some knock =>
          if isValid knock now then commitKnock addr knock s1
          else some { s1 with active_knocks := s1.active_knocks.erase addr }

/-- The loop body of main.rs `perform_cleanup`.  `oracle` lists, per
iteration, whether the raw socket reported readable when polled (the code
bails out so packets are handled first).  Returns the final state, whether
cleanup was interrupted, the number of queue pops, and the number of
readability polls. -/
def cleanupLoop (fuel : Nat) (oracle : List Bool) (now : Nat) (s : SysState)
    (pops polls : Nat) : SysState × Bool × Nat × Nat :=
  match fuel with
  | 0 => (s, false, pops, polls)
  | fuel + 1 =>
    match s.expiration_queue with
    | [] => (s, false, pops, polls)
    | e :: rest =>
      if now < e.expires then (s, false, pops, polls)
      else if oracle.headD false then (s, true, pops, polls + 1)
      else
        let s1 : SysState := { s with expiration_queue := rest }
        let removed := s1.knock_states.get e.key
        let s2 : SysState :=
          { s1 with knock_states := s1.knock_states.removeKey e.key }
        match removed with
        | none => cleanupLoop fuel oracle.tail now s2 (pops + 1) (polls + 1)
        | some _ =>
          cleanupLoop fuel oracle.tail now
            { s2 with active_knocks := s2.active_knocks.erase e.addr }
            (pops + 1) (polls + 1)

/-- From main.rs: one call of `perform_cleanup`, i.e. the cleanup work of one
scheduling turn of the event loop `run`. -/
def performCleanup (oracle : List Bool) (now : Nat) (s : SysState) :
    SysState × Bool × Nat × Nat :=
  cleanupLoop (s.expiration_queue.length + 1) oracle now s 0 0

/-- One scheduling turn of the event loop that touches the shared state:
either an accepted packet is handled, or the cleanup arm runs. -/
inductive Step : SysState → SysState → Prop where
  | knock (m : KnockMeta) (now : Nat) {s s' : SysState} :
      handleKnock m now s = some s' → Step s s'
  | cleanup (oracle : List Bool) (now : Nat) (s : SysState) :
      Step s (performCleanup oracle now s).1

/-- States reachable by the event loop from the empty state. -/
inductive Reachable : SysState → Prop where
  | init : Reachable initState
  | step {s s' : SysState} : Reachable s → Step s s' → Reachable s'

/-- Run a list of (packet, arrival time) knocks through the engine. -/
def runKnocks : List (KnockMeta × Nat) → SysState → Option SysState
  | [], s => some s
  | (m, t) :: rest, s => (handleKnock m t s).bind (runKnocks rest)

lemma reachable_runKnocks :
    ∀ {ms : List (KnockMeta × Nat)} {s s' : SysState},
      runKnocks ms s = some s' → Reachable s → Reachable s'
  | [], _, _, h, hs => by
      simp only [runKnocks, Option.some.injEq] at h
      exact h ▸ hs
  | (m, t) :: rest, s, s', h, hs => by
      simp only [runKnocks] at h
      match hmt : handleKnock m t s with
      | none => rw [hmt] at h; cases h
      | some s1 =>
        rw [hmt] at h
        exact reachable_runKnocks h (hs.step (Step.knock m t hmt))

/-! ## Inversion principles for the admission engine -/

lemma commitKnock_eq_some {addr : Addr} {knock : KnockState} {s s' : SysState} :
    commitKnock addr knock s = some s' ↔
      ∃ exp, expiration knock = some exp ∧
        s' = { knock_states := (s.knock_states.insertNew knock).2,
               active_knocks :=
                 s.active_knocks.insert addr (s.knock_states.insertNew knock).1,
               expiration_queue :=
                 qpush ⟨exp, (s.knock_states.insertNew knock).1, addr⟩
                   s.expiration_queue } := by
  unfold commitKnock
  cases expiration knock <;> simp [eq_comm]

/-- Case analysis of a successful `handle_knock` call: vacant and invalid,
vacant and accepted, fast path, occupied and accepted, occupied and
purged. -/
lemma handleKnock_cases {m : KnockMeta} {now : Nat} {s s' : SysState}
    (h : handleKnock m now s = some s') :
    (s.active_knocks.lookup m.dst_addr = none ∧
       isValid (tryNew m.dst_port now) now = false ∧ s' = s) ∨
    (s.active_knocks.lookup m.dst_addr = none ∧
       isValid (tryNew m.dst_port now) now = true ∧
       commitKnock m.dst_addr (tryNew m.dst_port now) s = some s') ∨
    (∃ k e, s.active_knocks.lookup m.dst_addr = some k ∧
       s.knock_states.get k = some (.Passed e) ∧ s' = s) ∨
    (∃ k st knock, s.active_knocks.lookup m.dst_addr = some k ∧
       s.knock_states.get k = some st ∧ (∀ e, st ≠ .Passed e) ∧
       progress st m.dst_port now = some knock ∧ isValid knock now = true ∧
       commitKnock m.dst_addr knock
         { s with knock_states := s.knock_states.removeKey k } = some s') ∨
    (∃ k st knock, s.active_knocks.lookup m.dst_addr = some k ∧
       s.knock_states.get k = some st ∧ (∀ e, st ≠ .Passed e) ∧
       progress st m.dst_port now = some knock ∧ isValid knock now = false ∧
       s' = { knock_states := s.knock_states.removeKey k,
              active_knocks := s.active_knocks.erase m.dst_addr,
              expiration_queue := s.expiration_queue }) := by
  simp only [handleKnock] at h
  split at h
  next hl =>
    split at h
    next hv => exact Or.inr (Or.inl ⟨hl, by simpa using hv, h⟩)
    next hv =>
      cases h
      exact Or.inl ⟨hl, by simpa using hv, rfl⟩
  next k hl =>
    split at h
    next hg => cases h
    next st hg =>
      split at h
      next e => exact Or.inr (Or.inr (Or.inl ⟨k, e, hl, hg, by cases h; rfl⟩))
      next hne =>
        split at h
        next hp => cases h
        next knock hp =>
          split at h
          next hv =>
            refine Or.inr (Or.inr (Or.inr (Or.inl
              ⟨k, st, knock, hl, hg, ?_, hp, by simpa using hv, h⟩)))
            intro e' he'
            exact hne e' (by rw [he'])
          next hv =>
            refine Or.inr (Or.inr (Or.inr (Or.inr
              ⟨k, st, knock, hl, hg, ?_, hp, by simpa using hv,
               by cases h; rfl⟩)))
            intro e' he'
            exact hne e' (by rw [he'])

/-! ## Concrete reachable states used as test vectors -/

/-- A packet from source address 1 to destination address 2. -/
def knockPkt (port : Nat) : KnockMeta := ⟨1, 2, 9, port⟩

/-- The state after one accepted first knock (port 123 at time 0). -/
def knock1State : SysState :=
  (handleKnock (knockPkt 123) 0 initState).getD initState

lemma reachable_knock1State : Reachable knock1State :=
  Reachable.init.step (Step.knock (knockPkt 123) 0 rfl)

/-- The full sequence 123, 436, 1928, 29545 knocked at times 0, 1, 2, 3. -/
def passedKnocks : List (KnockMeta × Nat) :=
  [(knockPkt 123, 0), (knockPkt 436, 1), (knockPkt 1928, 2),
   (knockPkt 29545, 3)]

/-- The state after the full sequence: the record for address 2 is
`Passed 33`. -/
def passedState : SysState :=
  (runKnocks passedKnocks initState).getD initState

lemma reachable_passedState : Reachable passedState :=
  @reachable_runKnocks passedKnocks initState passedState rfl Reachable.init

/-- First knocks to two distinct destination addresses 2 and 3 at time 0:
two due entries sit in the expiration queue. -/
def twoKnocks : List (KnockMeta × Nat) :=
  [(⟨1, 2, 9, 123⟩, 0), (⟨1, 3, 9, 123⟩, 0)]

def twoPendingState : SysState :=
  (runKnocks twoKnocks initState).getD initState

lemma reachable_twoPendingState : Reachable twoPendingState :=
  @reachable_runKnocks twoKnocks initState twoPendingState rfl Reachable.init

/-! ## C1: which address keys the per-source state -/

/-- C1 counterexample: `handle_knock` does not key state on the source
address.  Handling a packet with source address 1 and destination address 2
(destination port 123) creates an Active-Knock Index entry for the
destination address 2 and none for the source address 1. -/
theorem handle_knock_ignores_src_addr_cex :
    (handleKnock ⟨1, 2, 40000, 123⟩ 0 initState).map
        (fun s => ((s.active_knocks.lookup 1).isSome,
                   (s.active_knocks.lookup 2).isSome)) =
      some (false, true) := by decide

/-- C1 (amended): `handle_knock` keys all per-address state on the packet's
destination address: its behaviour depends only on the destination fields,
index entries of every other address are left untouched, and every
expiration-queue entry it pushes carries the destination address. -/
theorem handle_knock_keyed_on_dst_addr (m : KnockMeta) (now : Nat)
    (s : SysState) :
    handleKnock m now s = handleKnock ⟨0, m.dst_addr, 0, m.dst_port⟩ now s ∧
    ∀ s', handleKnock m now s = some s' →
      (∀ a, a ≠ m.dst_addr →
         s'.active_knocks.lookup a = s.active_knocks.lookup a) ∧
      (∀ e, e ∈ s'.expiration_queue → e ∉ s.expiration_queue →
         e.addr = m.dst_addr) := by
  refine ⟨rfl, ?_⟩
  intro s' h
  rcases handleKnock_cases h with
    ⟨_, _, rfl⟩ | ⟨_, _, hc⟩ | ⟨k, e, _, _, rfl⟩ |
    ⟨k, st, knock, _, _, _, _, _, hc⟩ | ⟨k, st, knock, _, _, _, _, _, rfl⟩
  · exact ⟨fun a _ => rfl, fun e he hne => absurd he hne⟩
  · rcases commitKnock_eq_some.1 hc with ⟨exp, _, rfl⟩
    refine ⟨fun a ha => AList.lookup_insert_ne ha, fun e he hne => ?_⟩
    rcases mem_qpush.1 he with rfl | he
    · rfl
    · exact absurd he hne
  · exact ⟨fun a _ => rfl, fun e he hne => absurd he hne⟩
  · rcases commitKnock_eq_some.1 hc with ⟨exp, _, rfl⟩
    refine ⟨fun a ha => AList.lookup_insert_ne ha, fun e he hne => ?_⟩
    rcases mem_qpush.1 he with rfl | he
    · rfl
    · exact absurd he hne
  · exact ⟨fun a ha => AList.lookup_erase_ne ha, fun e he hne => absurd he hne⟩

/-- Witness for the amended C1 at a concrete packet. -/
theorem handle_knock_keyed_on_dst_addr_witness :
    (handleKnock (knockPkt 123) 0 initState =
       handleKnock ⟨0, 2, 0, 123⟩ 0 initState) ∧
    (knock1State.active_knocks.lookup 7 =
       initState.active_knocks.lookup 7) :=
  ⟨(handle_knock_keyed_on_dst_addr (knockPkt 123) 0 initState).1,
   ((handle_knock_keyed_on_dst_addr (knockPkt 123) 0 initState).2
      knock1State rfl).1 7 (by decide)⟩

/-! ## C2: the "door already open" fast path -/

/-- C2 counterexample: by time 100 the `Passed 33` record of address 2 has
long expired, yet a knock on the sequence-start port 123 is still answered
with the fast path — `handle_knock` returns with no mutation at all instead
of beginning a fresh attempt, because the code matches `Passed { .. }`
without any liveness check. -/
theorem passed_fast_path_after_expiry_cex :
    Reachable passedState ∧
    passedState.active_knocks.lookup 2 = some 3 ∧
    passedState.knock_states.get 3 = some (.Passed 33) ∧
    isValid (.Passed 33) 100 = false ∧
    handleKnock (knockPkt 123) 100 passedState = some passedState :=
  ⟨reachable_passedState, by decide, by decide, by decide, rfl⟩

/-- C2 (amended): for every address whose indexed record is `Passed`, the
engine takes the "door already open" fast path (returns with no mutation of
any of the three structures) regardless of whether the passed window has
elapsed; a fresh attempt can only begin after the cleanup sweep has removed
the expired record. -/
theorem passed_fast_path_regardless_of_expiry (m : KnockMeta) (now : Nat)
    (s : SysState) (k : KnockKey) (e : Nat)
    (hk : s.active_knocks.lookup m.dst_addr = some k)
    (hst : s.knock_states.get k = some (.Passed e)) :
    handleKnock m now s = some s := by
  simp only [handleKnock, hk, hst]

/-- Witness for the amended C2 at the expired `Passed` state. -/
theorem passed_fast_path_regardless_of_expiry_witness :
    handleKnock (knockPkt 123) 100 passedState = some passedState :=
  passed_fast_path_regardless_of_expiry (knockPkt 123) 100 passedState 3 33
    (by decide) (by decide)

/-! ## C6: a wrong port purges the record -/

/-- C6: for an address with an existing `PortPending` record at step `i`, a
port that is neither the first sequence element, nor the current step's
port, nor the next expected port makes `handle_knock` remove the record from
the Record Store and the entry from the Active-Knock Index, insert no new
record, and push no new Expiration Queue entry. -/
theorem wrong_port_purges_record (m : KnockMeta) (now : Nat) (s : SysState)
    (k : KnockKey) (i e : Nat)
    (hk : s.active_knocks.lookup m.dst_addr = some k)
    (hst : s.knock_states.get k = some (.PortPending i e))
    (hi : i ≤ 2)
    (h0 : m.dst_port ≠ PORT_SEQUENCE.getD 0 0)
    (hc : m.dst_port ≠ PORT_SEQUENCE.getD i 0)
    (hn : m.dst_port ≠ PORT_SEQUENCE.getD (i + 1) 0) :
    handleKnock m now s =
      some { knock_states := s.knock_states.removeKey k,
             active_knocks := s.active_knocks.erase m.dst_addr,
             expiration_queue := s.expiration_queue } := by
  have hp : progress (.PortPending i e) m.dst_port now = some .Failed := by
    interval_cases i <;>
      · simp only [progress, PORT_SEQUENCE, List.getD, List.get?,
          Option.getD] at h0 hc hn ⊢
        rw [if_neg h0, if_neg hc, if_pos hn]
  simp only [handleKnock, hk, hst, hp, isValid]
  rfl

/-- Witness for C6: port 555 after a first knock purges the record. -/
theorem wrong_port_purges_record_witness :
    handleKnock (knockPkt 555) 1 knock1State =
      some { knock_states := knock1State.knock_states.removeKey 0,
             active_knocks := knock1State.active_knocks.erase 2,
             expiration_queue := knock1State.expiration_queue } :=
  wrong_port_purges_record (knockPkt 555) 1 knock1State 0 0 5
    (by decide) (by decide) (by decide) (by decide) (by decide) (by decide)

/-! ## C3: reconciliation of index and record store -/

/-- The inductive invariant tying the three structures together: no dangling
index entries, no orphan records, the index is injective, a queue entry whose
key is still stored points at the index entry of its address, and all keys
ever handed out are below the freshness counter. -/
structure Inv (s : SysState) : Prop where
  no_dangling : ∀ ⦃a k⦄, s.active_knocks.lookup a = some k →
      k ∈ s.knock_states.recs
  no_orphan : ∀ ⦃k⦄, k ∈ s.knock_states.recs →
      ∃ a, s.active_knocks.lookup a = some k
  index_inj : ∀ ⦃a a' k⦄, s.active_knocks.lookup a = some k →
      s.active_knocks.lookup a' = some k → a = a'
  queue_coherent : ∀ ⦃e⦄, e ∈ s.expiration_queue →
      e.key ∈ s.knock_states.recs →
      s.active_knocks.lookup e.addr = some e.key
  index_fresh : ∀ ⦃a k⦄, s.active_knocks.lookup a = some k →
      k < s.knock_states.next
  queue_fresh : ∀ ⦃e⦄, e ∈ s.expiration_queue → e.key < s.knock_states.next

lemma inv_initState : Inv initState := by
  refine ⟨?_, ?_, ?_, ?_, ?_, ?_⟩ <;>
    · intros
      simp_all [initState, AList.lookup_empty, AList.not_mem_empty]

/-- Invariant preservation for the accept tail.  The hypotheses state that
`s` satisfies the invariant except possibly for a dangling index entry at
`addr` itself (which `commitKnock` overwrites). -/
lemma inv_commitKnock {s s' : SysState} {addr : Addr} {knock : KnockState}
    (hc : commitKnock addr knock s = some s')
    (hA : ∀ ⦃a k⦄, s.active_knocks.lookup a = some k → a ≠ addr →
        k ∈ s.knock_states.recs)
    (hB : ∀ ⦃k⦄, k ∈ s.knock_states.recs →
        ∃ a, s.active_knocks.lookup a = some k ∧ a ≠ addr)
    (hC : ∀ ⦃a a' k⦄, s.active_knocks.lookup a = some k →
        s.active_knocks.lookup a' = some k → a = a')
    (hD : ∀ ⦃e⦄, e ∈ s.expiration_queue → e.key ∈ s.knock_states.recs →
        s.active_knocks.lookup e.addr = some e.key ∧ e.addr ≠ addr)
    (hE : ∀ ⦃a k⦄, s.active_knocks.lookup a = some k →
        k < s.knock_states.next)
    (hF : ∀ ⦃e⦄, e ∈ s.expiration_queue → e.key < s.knock_states.next) :
    Inv s' := by
  rcases commitKnock_eq_some.1 hc with ⟨exp, -, rfl⟩
  simp only [KnockStates.insertNew]
  constructor
  · intro a k hl
    by_cases ha : a = addr
    · subst ha
      rw [AList.lookup_insert] at hl
      cases hl
      exact (AList.mem_insert _).2 (Or.inl rfl)
    · rw [AList.lookup_insert_ne ha] at hl
      exact (AList.mem_insert _).2 (Or.inr (hA hl ha))
  · intro k hk
    rcases (AList.mem_insert _).1 hk with rfl | hk
    · exact ⟨addr, AList.lookup_insert _⟩
    · rcases hB hk with ⟨a, hl, ha⟩
      exact ⟨a, by rw [AList.lookup_insert_ne ha]; exact hl⟩
  · intro a a' k hl hl'
    by_cases ha : a = addr <;> by_cases ha' : a' = addr
    · rw [ha, ha']
    · subst ha
      rw [AList.lookup_insert] at hl
      cases hl
      rw [AList.lookup_insert_ne ha'] at hl'
      exact absurd (hE hl') (lt_irrefl _)
    · subst ha'
      rw [AList.lookup_insert] at hl'
      cases hl'
      rw [AList.lookup_insert_ne ha] at hl
      exact absurd (hE hl) (lt_irrefl _)
    · rw [AList.lookup_insert_ne ha] at hl
      rw [AList.lookup_insert_ne ha'] at hl'
      exact hC hl hl'
  · intro e he hk
    rcases mem_qpush.1 he with rfl | he
    · exact AList.lookup_insert _
    · rcases (AList.mem_insert _).1 hk with hk | hk
      · exact absurd (hk ▸ hF he) (lt_irrefl _)
      · rcases hD he hk with ⟨hl, ha⟩
        rw [AList.lookup_insert_ne ha]
        exact hl
  · intro a k hl
    by_cases ha : a = addr
    · subst ha
      rw [AList.lookup_insert] at hl
      cases hl
      exact Nat.lt_succ_self _
    · rw [AList.lookup_insert_ne ha] at hl
      exact Nat.lt_succ_of_lt (hE hl)
  · intro e he
    rcases mem_qpush.1 he with rfl | he
    · exact Nat.lt_succ_self _
    · exact Nat.lt_succ_of_lt (hF he)

/-- `handle_knock` preserves the invariant. -/
lemma inv_handleKnock {m : KnockMeta} {now : Nat} {s s' : SysState}
    (hInv : Inv s) (h : handleKnock m now s = some s') : Inv s' := by
  rcases handleKnock_cases h with
    ⟨hl, -, rfl⟩ | ⟨hl, -, hc⟩ | ⟨k, e, -, -, rfl⟩ |
    ⟨k, st, knock, hl, hg, -, -, -, hc⟩ |
    ⟨k, st, knock, hl, hg, -, -, -, rfl⟩
  · exact hInv
  · -- vacant accept: no index entry at the address yet
    refine inv_commitKnock hc (fun a k hla _ => hInv.no_dangling hla)
      (fun k hk => ?_) hInv.index_inj (fun e he hk => ?_)
      hInv.index_fresh hInv.queue_fresh
    · rcases hInv.no_orphan hk with ⟨a, hla⟩
      refine ⟨a, hla, ?_⟩
      rintro rfl
      rw [hl] at hla
      cases hla
    · refine ⟨hInv.queue_coherent he hk, ?_⟩
      intro hx
      have hq := hInv.queue_coherent he hk
      rw [hx, hl] at hq
      cases hq
  · exact hInv
  · -- occupied accept: the old record was removed, commit overwrites the
    -- dangling index entry
    have hmem : k ∈ s.knock_states.recs := by
      have hg' : s.knock_states.recs.lookup k = some st := hg
      exact AList.lookup_isSome.1 (by rw [hg']; rfl)
    refine inv_commitKnock hc ?_ ?_ hInv.index_inj ?_ hInv.index_fresh
      hInv.queue_fresh
    · intro a k' hla ha
      have hk' : k' ∈ s.knock_states.recs := hInv.no_dangling hla
      have hne : k' ≠ k := by
        rintro rfl
        exact ha (hInv.index_inj hla hl)
      exact AList.mem_erase.2 ⟨hne, hk'⟩
    · intro k' hk'
      rcases AList.mem_erase.1 hk' with ⟨hne, hk'⟩
      rcases hInv.no_orphan hk' with ⟨a, hla⟩
      refine ⟨a, hla, ?_⟩
      rintro rfl
      rw [hl] at hla
      cases hla
      exact hne rfl
    · intro e he hk'
      rcases AList.mem_erase.1 hk' with ⟨hne, hk'⟩
      refine ⟨hInv.queue_coherent he hk', ?_⟩
      intro hx
      have hq := hInv.queue_coherent he hk'
      rw [hx, hl] at hq
      cases hq
      exact hne rfl
  · -- occupied purge: record and index entry removed together
    have hmem : k ∈ s.knock_states.recs := by
      have hg' : s.knock_states.recs.lookup k = some st := hg
      exact AList.lookup_isSome.1 (by rw [hg']; rfl)
    constructor
    · intro a k' hla
      by_cases ha : a = m.dst_addr
      · subst ha
        rw [AList.lookup_erase] at hla
        cases hla
      · rw [AList.lookup_erase_ne ha] at hla
        have hne : k' ≠ k := by
          rintro rfl
          exact ha (hInv.index_inj hla hl)
        exact AList.mem_erase.2 ⟨hne, hInv.no_dangling hla⟩
    · intro k' hk'
      rcases AList.mem_erase.1 hk' with ⟨hne, hk'⟩
      rcases hInv.no_orphan hk' with ⟨a, hla⟩
      have ha : a ≠ m.dst_addr := by
        rintro rfl
        rw [hl] at hla
        cases hla
        exact hne rfl
      exact ⟨a, by rw [AList.lookup_erase_ne ha]; exact hla⟩
    · intro a a' k' hla hla'
      by_cases ha : a = m.dst_addr
      · subst ha; rw [AList.lookup_erase] at hla; cases hla
      · by_cases ha' : a' = m.dst_addr
        · subst ha'; rw [AList.lookup_erase] at hla'; cases hla'
        · rw [AList.lookup_erase_ne ha] at hla
          rw [AList.lookup_erase_ne ha'] at hla'
          exact hInv.index_inj hla hla'
    · intro e he hk'
      rcases AList.mem_erase.1 hk' with ⟨hne, hk'⟩
      have hla := hInv.queue_coherent he hk'
      have ha : e.addr ≠ m.dst_addr := by
        rintro hx
        rw [hx, hl] at hla
        cases hla
        exact hne rfl
      rw [AList.lookup_erase_ne ha]
      exact hla
    · intro a k' hla
      by_cases ha : a = m.dst_addr
      · subst ha; rw [AList.lookup_erase] at hla; cases hla
      · rw [AList.lookup_erase_ne ha] at hla
        exact hInv.index_fresh hla
    · intro e he
      exact hInv.queue_fresh he

/-- The cleanup loop preserves the invariant. -/
lemma inv_cleanupLoop (fuel : Nat) :
    ∀ (oracle : List Bool) (now : Nat) (s : SysState) (pops polls : Nat),
      Inv s → Inv (cleanupLoop fuel oracle now s pops polls).1 := by
  induction fuel with
  | zero => intro oracle now s pops polls hInv; exact hInv
  | succ fuel ih =>
    intro oracle now s pops polls hInv
    obtain ⟨ks, ak, q⟩ := s
    cases q with
    | nil => exact hInv
    | cons e rest =>
      set s : SysState := ⟨ks, ak, e :: rest⟩ with hs
      simp only [cleanupLoop]
      split
      · exact hInv
      · split
        · exact hInv
        · have he : e ∈ s.expiration_queue := List.mem_cons_self e rest
          have hrest : ∀ e', e' ∈ rest → e' ∈ s.expiration_queue := by
            intro e' h'
            exact List.mem_cons_of_mem e h'
          cases hg : s.knock_states.get e.key with
          | none =>
            -- stale tombstone: record already gone
            have hnot : e.key ∉ s.knock_states.recs :=
              AList.lookup_eq_none.1 hg
            refine ih oracle.tail now _ (pops + 1) (polls + 1) ?_
            constructor
            · intro a k hla
              have hk := hInv.no_dangling hla
              exact AList.mem_erase.2 ⟨fun hx => hnot (hx ▸ hk), hk⟩
            · intro k hk
              exact hInv.no_orphan (AList.mem_erase.1 hk).2
            · intro a a' k hla hla'
              exact hInv.index_inj hla hla'
            · intro e' he' hk'
              exact hInv.queue_coherent (hrest e' he')
                (AList.mem_erase.1 hk').2
            · intro a k hla
              exact hInv.index_fresh hla
            · intro e' he'
              exact hInv.queue_fresh (hrest e' he')
          | some st =>
            have hmem : e.key ∈ s.knock_states.recs := by
              have hg' : s.knock_states.recs.lookup e.key = some st := hg
              exact AList.lookup_isSome.1 (by rw [hg']; rfl)
            have hla : s.active_knocks.lookup e.addr = some e.key :=
              hInv.queue_coherent he hmem
            refine ih oracle.tail now _ (pops + 1) (polls + 1) ?_
            constructor
            · intro a k hla'
              by_cases ha : a = e.addr
              · subst ha; rw [AList.lookup_erase] at hla'; cases hla'
              · rw [AList.lookup_erase_ne ha] at hla'
                have hk := hInv.no_dangling hla'
                have hne : k ≠ e.key := by
                  rintro rfl
                  exact ha (hInv.index_inj hla' hla)
                exact AList.mem_erase.2 ⟨hne, hk⟩
            · intro k hk
              rcases AList.mem_erase.1 hk with ⟨hne, hk⟩
              rcases hInv.no_orphan hk with ⟨a, hla'⟩
              have ha : a ≠ e.addr := by
                rintro rfl
                rw [hla'] at hla
                cases hla
                exact hne rfl
              exact ⟨a, by rw [AList.lookup_erase_ne ha]; exact hla'⟩
            · intro a a' k hla' hla''
              by_cases ha : a = e.addr
              · subst ha; rw [AList.lookup_erase] at hla'; cases hla'
              · by_cases ha' : a' = e.addr
                · subst ha'; rw [AList.lookup_erase] at hla''; cases hla''
                · rw [AList.lookup_erase_ne ha] at hla'
                  rw [AList.lookup_erase_ne ha'] at hla''
                  exact hInv.index_inj hla' hla''
            · intro e' he' hk'
              rcases AList.mem_erase.1 hk' with ⟨hne, hk'⟩
              have hq' := hInv.queue_coherent (hrest e' he') hk'
              have ha : e'.addr ≠ e.addr := by
                intro hx
                rw [hx, hla] at hq'
                exact hne (Option.some.inj hq').symm
              rw [AList.lookup_erase_ne ha]
              exact hq'
            · intro a k hla'
              by_cases ha : a = e.addr
              · subst ha; rw [AList.lookup_erase] at hla'; cases hla'
              · rw [AList.lookup_erase_ne ha] at hla'
                exact hInv.index_fresh hla'
            · intro e' he'
              exact hInv.queue_fresh (hrest e' he')

/-- Every state the event loop can reach satisfies the invariant. -/
lemma inv_reachable {s : SysState} (h : Reachable s) : Inv s := by
  induction h with
  | init => exact inv_initState
  | step _ hstep ih =>
    cases hstep with
    | knock m now h => exact inv_handleKnock ih h
    | cleanup oracle now s => exact inv_cleanupLoop _ oracle now _ 0 0 ih

/-- The reconciliation property exactly as claimed: the index contains an
address iff the store holds a non-removed AND non-expired record the index
maps that address to. -/
def liveReconciled (s : SysState) (now : Nat) : Prop :=
  ∀ a, (s.active_knocks.lookup a).isSome ↔
    ∃ k, s.active_knocks.lookup a = some k ∧
      ∃ st, s.knock_states.get k = some st ∧ isValid st now = true

/-- C3 counterexample: the "non-expired" half of the claim fails.  After a
single first knock at time 0 the pending record expires at time 5; at the
quiescent point `now = 10` (no further knock, no sweep yet) the index still
contains address 2 but its record is expired, so the claimed iff is false. -/
theorem index_entry_points_at_expired_record_cex :
    Reachable knock1State ∧ ¬ liveReconciled knock1State 10 := by
  refine ⟨reachable_knock1State, fun h => ?_⟩
  rcases (h 2).mp (by decide) with ⟨k, hk, st, hst, hv⟩
  have hk2 : knock1State.active_knocks.lookup 2 = some 0 := by decide
  rw [hk2] at hk
  cases hk
  have hst0 : knock1State.knock_states.get 0 = some (.PortPending 0 5) := by
    decide
  rw [hst0] at hst
  cases hst
  exact absurd hv (by decide)

/-- C3 (amended): in every reachable quiescent state, the Active-Knock Index
contains an address iff the Record Store holds a (non-removed) record whose
identifier the index maps that address to — no dangling index entries and no
records unreachable from the index.  (The record may already be past its
expiry; only the cleanup sweep removes it, see the counterexample.) -/
theorem index_iff_stored_record (s : SysState) (h : Reachable s) :
    (∀ a, (s.active_knocks.lookup a).isSome ↔
       ∃ k, s.active_knocks.lookup a = some k ∧
         (s.knock_states.get k).isSome) ∧
    (∀ k, k ∈ s.knock_states.recs →
       ∃ a, s.active_knocks.lookup a = some k) := by
  have hInv := inv_reachable h
  refine ⟨fun a => ⟨fun ha => ?_, ?_⟩, hInv.no_orphan⟩
  · rcases Option.isSome_iff_exists.1 ha with ⟨k, hk⟩
    exact ⟨k, hk, AList.lookup_isSome.2 (hInv.no_dangling hk)⟩
  · rintro ⟨k, hk, -⟩
    rw [hk]
    rfl

/-- Witness for the amended C3 at the reachable passed state. -/
theorem index_iff_stored_record_witness :
    (passedState.active_knocks.lookup 2).isSome ↔
      ∃ k, passedState.active_knocks.lookup 2 = some k ∧
        (passedState.knock_states.get k).isSome :=
  (index_iff_stored_record passedState reachable_passedState).1 2

/-! ## C4: how much cleanup work one scheduling turn performs -/

lemma cleanupLoop_pops_le_polls (fuel : Nat) :
    ∀ (oracle : List Bool) (now : Nat) (s : SysState) (pops polls : Nat),
      (cleanupLoop fuel oracle now s pops polls).2.2.1 + polls ≤
        (cleanupLoop fuel oracle now s pops polls).2.2.2 + pops := by
  induction fuel with
  | zero => intro oracle now s pops polls; dsimp only [cleanupLoop]; omega
  | succ fuel ih =>
    intro oracle now s pops polls
    obtain ⟨ks, ak, q⟩ := s
    cases q with
    | nil => dsimp only [cleanupLoop]; omega
    | cons e rest =>
      dsimp only [cleanupLoop]
      split
      · dsimp only; omega
      · split
        · dsimp only; omega
        · split
          · have := ih oracle.tail now
              ⟨ks.removeKey e.key, ak, rest⟩ (pops + 1) (polls + 1)
            omega
          · have := ih oracle.tail now
              ⟨ks.removeKey e.key, AList.erase e.addr ak, rest⟩
              (pops + 1) (polls + 1)
            omega

/-- C4 counterexample: a single scheduling turn of the event loop calls
`perform_cleanup` once, and that one call loops: with two due entries in the
queue and a quiet socket it performs two queue pops in the one turn, not at
most one. -/
theorem cleanup_turn_pops_twice_cex :
    Reachable twoPendingState ∧
    (performCleanup [] 100 twoPendingState).2.2.1 = 2 ∧
    ¬ (performCleanup [] 100 twoPendingState).2.2.1 ≤ 1 :=
  ⟨reachable_twoPendingState, rfl, by decide⟩

/-- C4 (amended): one scheduling turn's `perform_cleanup` drains due entries
until the queue is exhausted, the head entry is not yet due, or the socket
reports readable — not at most one pop per turn.  The latency bound it does
give: at most one pop happens per socket-readability poll, and if the socket
is readable already at the first poll the turn pops nothing at all, so
pending packet work is delayed by at most one queue-pop. -/
theorem cleanup_pops_bounded_by_polls (oracle : List Bool) (now : Nat)
    (s : SysState) :
    (performCleanup oracle now s).2.2.1 ≤
      (performCleanup oracle now s).2.2.2 ∧
    (oracle.headD false = true → (performCleanup oracle now s).2.2.1 = 0) := by
  constructor
  · have := cleanupLoop_pops_le_polls (s.expiration_queue.length + 1)
      oracle now s 0 0
    simpa [performCleanup] using this
  · intro h
    obtain ⟨ks, ak, q⟩ := s
    cases q with
    | nil => rfl
    | cons e rest =>
      have h' : oracle.head?.getD false = true := by
        simpa [List.headD_eq_head?_getD] using h
      by_cases hd : now < e.expires
      · simp [performCleanup, cleanupLoop, hd]
      · simp [performCleanup, cleanupLoop, hd, h']

/-- Witness for the amended C4: a readable socket at the first poll means
zero pops. -/
theorem cleanup_pops_bounded_by_polls_witness :
    (performCleanup [true] 100 twoPendingState).2.2.1 = 0 :=
  (cleanup_pops_bounded_by_polls [true] 100 twoPendingState).2 rfl

/-! ## The expire.rs variant of the cleanup sweep -/

namespace Expire

/-- The log events `ExpirationQueue::try_clean_next` can emit.
`cleanedStale` is the low-level trace of the tombstone path; the other two
are the user-visible info events. -/
inductive Event where
  | doorClosed (addr : Addr)
  | cleanedKnocks (addr : Addr)
  | cleanedStale (addr : Addr)
deriving DecidableEq, Repr

/-- Result of one `try_clean_next` call. -/
structure CleanResult where
  knock_states : KnockStates
  active_knocks : ActiveKnocks
  queue : List QEntry
  did_work : Bool
  events : List Event
deriving DecidableEq

/-- From expire.rs: `ExpirationQueue::insert`; the heap orders entries by
`expires` alone, modelled by sorted insertion. -/
def insertByExpires (e : QEntry) : List QEntry → List QEntry
  | [] => [e]
  | x :: xs =>
    if e.expires < x.expires then e :: x :: xs else x :: insertByExpires e xs

/-- From expire.rs: `ExpirationQueue::try_clean_next`.  Peeks the minimum
(the head of the sorted queue); returns `false` if the queue is empty or the
minimum is not yet due; otherwise pops exactly that one entry, reconciles it
against the record store, and returns `true` — also on the stale-tombstone
path, where the record is already gone. -/
def tryCleanNext (now : Nat) (knock_states : KnockStates)
    (active_knocks : ActiveKnocks) (queue : List QEntry) : CleanResult :=
  match queue with
  | [] => ⟨knock_states, active_knocks, queue, false, []⟩
  | e :: rest =>
    if now < e.expires then ⟨knock_states, active_knocks, queue, false, []⟩
    else
      match knock_states.get e.key with
      | some knock =>
        ⟨knock_states.removeKey e.key, active_knocks.erase e.addr, rest, true,
         [match knock with
          | .Passed _ => .doorClosed e.addr
          | _ => .cleanedKnocks e.addr]⟩
      | none =>
        ⟨knock_states.removeKey e.key, active_knocks, rest, true,
         [.cleanedStale e.addr]⟩

end Expire

/-- C8: `try_clean_next` returns `false` iff the queue is empty or its
minimum entry is still in the future; otherwise it pops exactly one entry
(the head) and returns `true`, including when the popped entry is a stale
tombstone. -/
theorem try_clean_next_false_iff_empty_or_future (now : Nat)
    (ks : KnockStates) (ak : ActiveKnocks) (queue : List QEntry) :
    ((Expire.tryCleanNext now ks ak queue).did_work = false ↔
       queue.head? = none ∨ ∃ e, queue.head? = some e ∧ now < e.expires) ∧
    ((Expire.tryCleanNext now ks ak queue).did_work = true →
       (Expire.tryCleanNext now ks ak queue).queue = queue.tail ∧
       (Expire.tryCleanNext now ks ak queue).queue.length + 1 =
         queue.length) := by
  cases queue with
  | nil => simp [Expire.tryCleanNext]
  | cons e rest =>
    by_cases hd : now < e.expires
    · simp [Expire.tryCleanNext, hd]
    · cases hg : ks.get e.key <;>
        simp [Expire.tryCleanNext, hd, hg]

/-- Witness for C8 at a due entry of a concrete reachable state. -/
theorem try_clean_next_false_iff_empty_or_future_witness :
    (Expire.tryCleanNext 10 knock1State.knock_states
        knock1State.active_knocks knock1State.expiration_queue).queue =
      knock1State.expiration_queue.tail :=
  ((try_clean_next_false_iff_empty_or_future 10 knock1State.knock_states
      knock1State.active_knocks knock1State.expiration_queue).2 rfl).1

/-- C9: when the popped entry's record is already gone from the store (a
stale tombstone), the sweep leaves the Active-Knock Index untouched and
emits only the low-level stale trace — no "door closed" and no "cleaned
knock attempts" event. -/
theorem stale_tombstone_frame (now : Nat) (ks : KnockStates)
    (ak : ActiveKnocks) (e : QEntry) (rest : List QEntry)
    (hdue : ¬ now < e.expires) (hgone : ks.get e.key = none) :
    (Expire.tryCleanNext now ks ak (e :: rest)).active_knocks = ak ∧
    (Expire.tryCleanNext now ks ak (e :: rest)).events =
      [.cleanedStale e.addr] := by
  simp [Expire.tryCleanNext, hdue, hgone]

/-- Witness for C9 at a concrete stale tombstone. -/
theorem stale_tombstone_frame_witness :
    (Expire.tryCleanNext 10 ⟨1, ∅⟩ knock1State.active_knocks
        [⟨5, 0, 2⟩]).active_knocks = knock1State.active_knocks ∧
    (Expire.tryCleanNext 10 ⟨1, ∅⟩ knock1State.active_knocks
        [⟨5, 0, 2⟩]).events = [.cleanedStale 2] :=
  stale_tombstone_frame 10 ⟨1, ∅⟩ knock1State.active_knocks ⟨5, 0, 2⟩ []
    (by decide) (by decide)

end PortKnock
